import Mathlib

/-
Shallow embedding of the TTL memory cache (src/unnamed/part_003), the
pattern-based cache invalidation helper (src/unnamed/part_001), and the
per-product metrics aggregation of the products dashboard page
(src/coffee-business-analysis/src/app/dashboard/products/page.tsx).

Modelling conventions:
* JavaScript numbers are modelled as `Int` for timestamps and ttl values
  (milliseconds) and as `Rat` for prices, quantities and revenue; those
  models are exact for every value the development evaluates.
* A `Map<string, V>` is modelled as an insertion-ordered association list;
  `Map.set` replaces in place, `Map.delete` removes the (unique) binding,
  `Map.keys` lists keys in insertion order.
* `T | null` is modelled as `Option`: `none` models `null`.  A cache
  entry's `data` field has type `Option α` because the stored value may
  itself be `null`.
* `Date.now()` is passed explicitly as the `now` argument of each cache
  operation; a single call runs at one instant.
* The `async` producer passed to `getOrSet` is modelled by the outcome of
  the one invocation it would receive on that call: `Except ε (Option α)`,
  where `Except.error` models a rejected promise / thrown error.  The
  `Bool` component of the result records whether the producer was invoked
  during that call.
* `Array.prototype.sort` with comparator `(a, b) => b.totalSold - a.totalSold`
  is modelled as the stable `List.mergeSort` with the corresponding
  boolean relation, matching the ECMAScript requirement that sort be
  stable.
-/

/- `Map.get`: first binding for the key, if any. -/
def mapGet {β : Type} (m : List (String × β)) (k : String) : Option β :=
  match m with
  | [] => none
  | (k1, v) :: rest => if k1 = k then some v else mapGet rest k

/- `Map.set`: replace the existing binding in place, else append. -/
def mapSet {β : Type} (m : List (String × β)) (k : String) (v : β) :
    List (String × β) :=
  match m with
  | [] => [(k, v)]
  | (k1, v1) :: rest => if k1 = k then (k, v) :: rest else (k1, v1) :: mapSet rest k v

/- `Map.delete`: remove the binding for the key, if any. -/
def mapDelete {β : Type} (m : List (String × β)) (k : String) :
    List (String × β) :=
  match m with
  | [] => []
  | (k1, v1) :: rest => if k1 = k then rest else (k1, v1) :: mapDelete rest k

/- `interface CacheEntry<T> { data: T; timestamp: number; expiresAt: number }`
   (src/unnamed/part_003, lines 8-12).  `data : Option α` because the value
   type `T` may itself contain `null`. -/
structure CacheEntry (α : Type) where
  data : Option α
  timestamp : Int
  expiresAt : Int
deriving DecidableEq

/- `private cache: Map<string, CacheEntry<any>>` (src/unnamed/part_003). -/
abbrev MemoryCache (α : Type) : Type := List (String × CacheEntry α)

namespace MemoryCache

/- `private defaultTTL: number = 5 * 60 * 1000` (src/unnamed/part_003, line 16). -/
def defaultTTL : Int := 5 * 60 * 1000

/- `ttl || this.defaultTTL` (src/unnamed/part_003, line 41): an absent
   (`undefined`) or zero (falsy) ttl argument falls back to the default. -/
def ttlOrDefault (ttl : Option Int) : Int :=
  match ttl with
  | none => defaultTTL
  | some t => if t = 0 then defaultTTL else t

/- `get<T>(key)` (src/unnamed/part_003, lines 21-35): absent entry gives
   `null`; an entry with `Date.now() > expiresAt` is deleted and `null` is
   returned; otherwise `entry.data` is returned.  The second component is
   the cache after the call (lazy eviction may mutate it). -/
def get {α : Type} (c : MemoryCache α) (now : Int) (key : String) :
    Option α × MemoryCache α :=
  match mapGet c key with
  | none => (none, c)
  | some entry =>
    if now > entry.expiresAt then (none, mapDelete c key)
    else (entry.data, c)

/- `set<T>(key, data, ttl?)` (src/unnamed/part_003, lines 40-48):
   `expiresAt = Date.now() + (ttl || defaultTTL)`, `timestamp = Date.now()`,
   unconditional overwrite. -/
def set {α : Type} (c : MemoryCache α) (now : Int) (key : String)
    (data : Option α) (ttl : Option Int) : MemoryCache α :=
  mapSet c key { data := data, timestamp := now, expiresAt := now + ttlOrDefault ttl }

/- `has(key)` (src/unnamed/part_003, lines 53-55): `this.get(key) !== null`. -/
def has {α : Type} (c : MemoryCache α) (now : Int) (key : String) : Bool :=
  (get c now key).1.isSome

/- `delete(key)` (src/unnamed/part_003, lines 60-62). -/
def deleteKey {α : Type} (c : MemoryCache α) (key : String) : MemoryCache α :=
  mapDelete c key

/- `stats()` (src/unnamed/part_003, lines 87-92): entry count and the list
   of keys currently in the map (expired-but-unswept ones included). -/
structure CacheStats where
  size : Nat
  keys : List String

def stats {α : Type} (c : MemoryCache α) : CacheStats :=
  { size := c.length, keys := c.map Prod.fst }

/- `getOrSet<T>(key, fetcher, ttl?)` (src/unnamed/part_003, lines 97-112):
   return the cached value when `get` yields non-null; otherwise invoke the
   fetcher, and on success store its result and return it; a fetcher
   failure propagates and nothing is stored.  Result components: returned
   outcome, cache after the call, whether the fetcher was invoked. -/
def getOrSet {α ε : Type} (c : MemoryCache α) (now : Int) (key : String)
    (fetcher : Except ε (Option α)) (ttl : Option Int) :
    Except ε (Option α) × MemoryCache α × Bool :=
  match get c now key with
  | (some v, c1) => (Except.ok (some v), c1, false)
  | (none, c1) =>
    match fetcher with
    | Except.error e => (Except.error e, c1, true)
    | Except.ok data => (Except.ok data, set c1 now key data ttl, true)

end MemoryCache

/- `String.prototype.includes(pattern)`: literal substring containment,
   over the character lists of the two strings. -/
def hasSubstr (pat : List Char) : List Char → Bool
  | [] => pat.isEmpty
  | c :: rest => pat.isPrefixOf (c :: rest) || hasSubstr pat rest

/- `key.includes(pattern)` (src/unnamed/part_001, line 80). -/
def strIncludes (s pat : String) : Bool :=
  hasSubstr pat.toList s.toList

/- `invalidateCache(pattern)` (src/unnamed/part_001, lines 75-88): iterate
   the snapshot of keys from `stats()`, delete each key containing the
   pattern, count the deletions.  Result: (count, cache after). -/
def invalidateCache {α : Type} (c : MemoryCache α) (pat : String) :
    Nat × MemoryCache α :=
  (MemoryCache.stats c).keys.foldl
    (fun acc key =>
      if strIncludes key pat then (acc.1 + 1, MemoryCache.deleteKey acc.2 key)
      else acc)
    (0, c)

/- Projection of the Prisma `Product` row to the fields the dashboard
   computation reads (page.tsx). -/
structure Product where
  id : String
  category : String
  price : Rat
  cost : Rat
deriving DecidableEq

/- Projection of the Prisma `OrderItem` row to the fields read by the
   aggregation: `productId`, `quantity`, `price` (unit price). -/
structure OrderItem where
  productId : String
  quantity : Rat
  price : Rat
deriving DecidableEq

/- The accumulator record `{ quantity, revenue }` of `metricsMap`
   (page.tsx, line 23). -/
structure ItemTotals where
  quantity : Rat
  revenue : Rat
deriving DecidableEq

/- One iteration of the aggregation loop (page.tsx, lines 24-29):
   `cur = metricsMap.get(oi.productId) || { quantity: 0, revenue: 0 }`,
   then add `oi.quantity` and `oi.quantity * oi.price`, then set. -/
def miStep (m : List (String × ItemTotals)) (oi : OrderItem) :
    List (String × ItemTotals) :=
  let cur := (mapGet m oi.productId).getD ⟨0, 0⟩
  mapSet m oi.productId ⟨cur.quantity + oi.quantity, cur.revenue + oi.quantity * oi.price⟩

/- `metricsMap` after the whole loop over `orderItems` (page.tsx, lines 23-29). -/
def metricsMap (items : List OrderItem) : List (String × ItemTotals) :=
  items.foldl miStep []

/- `Math.round`: round half toward positive infinity, `⌊x + 1/2⌋`. -/
def jsRound (x : Rat) : Int :=
  Int.floor (x + 1 / 2)

/- `type ProductWithMetrics = Product & {...}` (page.tsx, lines 6-11). -/
structure ProductWithMetrics where
  id : String
  category : String
  price : Rat
  cost : Rat
  totalSold : Rat
  totalRevenue : Rat
  profitPerUnit : Rat
  marginPercent : Rat
deriving DecidableEq

/- `productsWithMetrics` (page.tsx, lines 32-44): for each product, look up
   its totals (defaulting to zero), `profitPerUnit = price - cost`,
   `marginPercent = price > 0 ? Math.round(((profitPerUnit / price) * 100) * 10) / 10 : 0`. -/
def productsWithMetrics (products : List Product) (items : List OrderItem) :
    List ProductWithMetrics :=
  let mm := metricsMap items
  products.map fun p =>
    let m := (mapGet mm p.id).getD ⟨0, 0⟩
    let profitPerUnit := p.price - p.cost
    let marginPercent :=
      if p.price > 0 then (jsRound (profitPerUnit / p.price * 100 * 10) : Rat) / 10
      else 0
    { id := p.id, category := p.category, price := p.price, cost := p.cost,
      totalSold := m.quantity, totalRevenue := m.revenue,
      profitPerUnit := profitPerUnit, marginPercent := marginPercent }

/- `sortedBySold` (page.tsx, line 47): stable sort, descending by
   `totalSold`. -/
def sortedBySold (l : List ProductWithMetrics) : List ProductWithMetrics :=
  l.mergeSort fun a b => decide (b.totalSold ≤ a.totalSold)

/- `topSellers` (page.tsx, line 48): ids of the first three of the sorted
   sequence. -/
def topSellers (l : List ProductWithMetrics) : List String :=
  ((sortedBySold l).take 3).map fun p => p.id

/- `slowMovers` (page.tsx, line 49): ids of `slice(-3)` of the sorted
   sequence, i.e. its last three (the whole list when shorter). -/
def slowMovers (l : List ProductWithMetrics) : List String :=
  ((sortedBySold l).drop ((sortedBySold l).length - 3)).map fun p => p.id

/- The spec's wording of the margin formula (spec.md section 4.4):
   `marginPercent = round((profitPerUnit / price) * 1000) / 10` when
   `price > 0`, else `0`.  Stated separately to be compared with the
   computation of `productsWithMetrics`. -/
def marginPercentSpec (price cost : Rat) : Rat :=
  if price > 0 then (jsRound ((price - cost) / price * 1000) : Rat) / 10
  else 0

/- Sum of the quantities of the line items attributed to a given id. -/
def sumQty (pid : String) (items : List OrderItem) : Rat :=
  ((items.filter fun oi => decide (oi.productId = pid)).map fun oi => oi.quantity).sum

/- Sum of quantity times unit price of the line items attributed to a
   given id. -/
def sumRevenue (pid : String) (items : List OrderItem) : Rat :=
  ((items.filter fun oi => decide (oi.productId = pid)).map
    fun oi => oi.quantity * oi.price).sum

/- Association-list lemmas for the `Map` model. -/

theorem mapGet_mapSet {β : Type} (m : List (String × β)) (k j : String) (v : β) :
    mapGet (mapSet m k v) j = if j = k then some v else mapGet m j := by
  induction m with
  | nil =>
    by_cases h : j = k
    · simp [mapSet, mapGet, h]
    · have h2 : ¬k = j := fun hh => h hh.symm
      simp [mapSet, mapGet, h, h2]
  | cons hd tl ih =>
    obtain ⟨k1, v1⟩ := hd
    by_cases h1 : k1 = k <;> by_cases h2 : j = k <;> by_cases h3 : k1 = j <;>
      simp_all [mapSet, mapGet]

theorem mapGet_mapDelete_ne {β : Type} (m : List (String × β)) (k j : String)
    (h : j ≠ k) : mapGet (mapDelete m k) j = mapGet m j := by
  induction m with
  | nil => simp [mapDelete]
  | cons hd tl ih =>
    obtain ⟨k1, v1⟩ := hd
    by_cases h1 : k1 = k <;> by_cases h2 : k1 = j <;>
      simp_all [mapDelete, mapGet]

theorem mapDelete_eq_filter {β : Type} (m : List (String × β)) (k : String)
    (hnd : (m.map Prod.fst).Nodup) :
    mapDelete m k = m.filter fun e => !(decide (e.1 = k)) := by
  induction m with
  | nil => simp [mapDelete]
  | cons hd tl ih =>
    obtain ⟨k1, v1⟩ := hd
    simp only [List.map_cons, List.nodup_cons] at hnd
    by_cases h1 : k1 = k
    · subst h1
      have : tl.filter (fun e => !(decide (e.1 = k1))) = tl := by
        apply List.filter_eq_self.2
        intro e he
        simp only [Bool.not_eq_true']
        exact decide_eq_false fun hk => hnd.1 (hk ▸ List.mem_map_of_mem Prod.fst he)
      simp [mapDelete, this]
    · simp [mapDelete, h1, ih hnd.2]

/- Characterisation of `hasSubstr` as literal substring containment. -/

theorem isPrefixOf_eq_true_iff (p : List Char) :
    ∀ s : List Char, p.isPrefixOf s = true ↔ ∃ r, s = p ++ r := by
  induction p with
  | nil => intro s; simp [List.isPrefixOf]
  | cons a as ih =>
    intro s
    cases s with
    | nil => simp [List.isPrefixOf]
    | cons b bs =>
      simp only [List.isPrefixOf, Bool.and_eq_true, beq_iff_eq, ih]
      constructor
      · rintro ⟨rfl, r, rfl⟩
        exact ⟨r, rfl⟩
      · rintro ⟨r, hr⟩
        injection hr with h1 h2
        exact ⟨h1.symm, r, h2⟩

theorem hasSubstr_iff (p : List Char) :
    ∀ s : List Char, hasSubstr p s = true ↔ ∃ l r, s = l ++ p ++ r := by
  intro s
  induction s with
  | nil =>
    simp only [hasSubstr, List.isEmpty_iff]
    constructor
    · rintro rfl; exact ⟨[], [], rfl⟩
    · rintro ⟨l, r, hr⟩
      have hlen := congrArg List.length hr
      simp only [List.length_nil, List.length_append] at hlen
      have hp : p.length = 0 := by omega
      exact List.length_eq_zero.1 hp
  | cons c rest ih =>
    simp only [hasSubstr, Bool.or_eq_true, isPrefixOf_eq_true_iff, ih]
    constructor
    · rintro (⟨r, hr⟩ | ⟨l, r, hr⟩)
      · exact ⟨[], r, by simpa using hr⟩
      · exact ⟨c :: l, r, by simp [hr]⟩
    · rintro ⟨l, r, hr⟩
      cases l with
      | nil => exact Or.inl ⟨r, by simpa using hr⟩
      | cons x l1 =>
        injection hr with h1 h2
        exact Or.inr ⟨l1, r, h2⟩

/- Unfolding lemmas for the cache operations. -/

theorem get_eq_some {α : Type} (c : MemoryCache α) (now : Int) (k : String)
    (e : CacheEntry α) (h : mapGet c k = some e) :
    MemoryCache.get c now k
      = if now > e.expiresAt then (none, mapDelete c k) else (e.data, c) := by
  unfold MemoryCache.get
  rw [h]

theorem get_eq_none {α : Type} (c : MemoryCache α) (now : Int) (k : String)
    (h : mapGet c k = none) : MemoryCache.get c now k = (none, c) := by
  unfold MemoryCache.get
  rw [h]

theorem mapGet_set_self {α : Type} (c : MemoryCache α) (now : Int) (k : String)
    (d : Option α) (ttl : Option Int) :
    mapGet (MemoryCache.set c now k d ttl) k
      = some { data := d, timestamp := now,
               expiresAt := now + MemoryCache.ttlOrDefault ttl } := by
  simp [MemoryCache.set, mapGet_mapSet]

theorem ttlOrDefault_pos (ttl : Option Int) (h : ∀ t, ttl = some t → 0 ≤ t) :
    0 < MemoryCache.ttlOrDefault ttl := by
  cases ttl with
  | none => simp [MemoryCache.ttlOrDefault, MemoryCache.defaultTTL]
  | some t =>
    have ht := h t rfl
    by_cases h0 : t = 0
    · simp [MemoryCache.ttlOrDefault, h0, MemoryCache.defaultTTL]
    · simp only [MemoryCache.ttlOrDefault, if_neg h0]
      omega

theorem ttlOrDefault_ne_zero (t : Int) (h : t ≠ 0) :
    MemoryCache.ttlOrDefault (some t) = t := by
  simp [MemoryCache.ttlOrDefault, h]

theorem getOrSet_of_get_hit {α ε : Type} (c c1 : MemoryCache α) (now : Int)
    (k : String) (v : α) (f : Except ε (Option α)) (ttl : Option Int)
    (h : MemoryCache.get c now k = (some v, c1)) :
    MemoryCache.getOrSet c now k f ttl = (Except.ok (some v), c1, false) := by
  unfold MemoryCache.getOrSet
  rw [h]

theorem getOrSet_of_get_miss_ok {α ε : Type} (c c1 : MemoryCache α) (now : Int)
    (k : String) (d : Option α) (ttl : Option Int)
    (h : MemoryCache.get c now k = (none, c1)) :
    MemoryCache.getOrSet c now k (Except.ok d : Except ε (Option α)) ttl
      = (Except.ok d, MemoryCache.set c1 now k d ttl, true) := by
  unfold MemoryCache.getOrSet
  rw [h]

theorem getOrSet_of_get_miss_error {α ε : Type} (c c1 : MemoryCache α) (now : Int)
    (k : String) (e : ε) (ttl : Option Int)
    (h : MemoryCache.get c now k = (none, c1)) :
    MemoryCache.getOrSet c now k (Except.error e : Except ε (Option α)) ttl
      = (Except.error e, c1, true) := by
  unfold MemoryCache.getOrSet
  rw [h]

/-- C1: for every key `k`, value `v` and `ttl > 0`, `set(k, v, ttl)` followed
immediately by `get(k)` returns the stored value; and on any cache state
holding an entry for `k`, `get(k)` at a time `now` strictly past the entry's
`expiresAt` removes the entry and returns absent, while `get(k)` with
`now <= expiresAt` returns the stored data and leaves the cache unchanged. -/
theorem ttl_correctness :
    (∀ (α : Type) (c : MemoryCache α) (now : Int) (k : String) (d : Option α)
        (ttl : Int), 0 < ttl →
        MemoryCache.get (MemoryCache.set c now k d (some ttl)) now k
          = (d, MemoryCache.set c now k d (some ttl))) ∧
    (∀ (α : Type) (c : MemoryCache α) (now : Int) (k : String) (e : CacheEntry α),
        mapGet c k = some e → e.expiresAt < now →
        MemoryCache.get c now k = (none, mapDelete c k)) ∧
    (∀ (α : Type) (c : MemoryCache α) (now : Int) (k : String) (e : CacheEntry α),
        mapGet c k = some e → now ≤ e.expiresAt →
        MemoryCache.get c now k = (e.data, c)) := by
  refine ⟨?_, ?_, ?_⟩
  · intro α c now k d ttl hpos
    rw [get_eq_some _ _ _ _ (mapGet_set_self c now k d (some ttl))]
    rw [ttlOrDefault_ne_zero ttl (by omega)]
    have : ¬now > now + ttl := by omega
    rw [if_neg this]
  · intro α c now k e hk hlt
    rw [get_eq_some _ _ _ _ hk, if_pos hlt]
  · intro α c now k e hk hle
    have : ¬now > e.expiresAt := by omega
    rw [get_eq_some _ _ _ _ hk, if_neg this]

/-- C1 witness: the three parts of `ttl_correctness` evaluated on concrete
caches and times. -/
theorem ttl_correctness_witness :
    MemoryCache.get (MemoryCache.set ([] : MemoryCache Nat) 0 "k" (some 5) (some 7)) 0 "k"
      = (some 5, MemoryCache.set ([] : MemoryCache Nat) 0 "k" (some 5) (some 7)) ∧
    MemoryCache.get ([("k", { data := some 3, timestamp := 0, expiresAt := 10 })] : MemoryCache Nat) 11 "k"
      = (none, mapDelete [("k", { data := some 3, timestamp := 0, expiresAt := 10 })] "k") ∧
    MemoryCache.get ([("k", { data := some 3, timestamp := 0, expiresAt := 10 })] : MemoryCache Nat) 10 "k"
      = (some 3, [("k", { data := some 3, timestamp := 0, expiresAt := 10 })]) :=
  ⟨ttl_correctness.1 Nat [] 0 "k" (some 5) 7 (by decide),
   ttl_correctness.2.1 Nat _ 11 "k" { data := some 3, timestamp := 0, expiresAt := 10 }
     rfl (by decide),
   ttl_correctness.2.2 Nat _ 10 "k" { data := some 3, timestamp := 0, expiresAt := 10 }
     rfl (by decide)⟩

/-- C8 counterexample: the interface accepts a negative ttl argument
(`ttl: number`), and `set` with `ttl = -1` at `now = 0` creates an entry
with `expiresAt = -1`, which is not greater than `createdAt = 0`. -/
theorem entry_invariant_counterexample :
    mapGet (MemoryCache.set ([] : MemoryCache Nat) 0 "k" none (some (-1))) "k"
      = some { data := none, timestamp := 0, expiresAt := -1 } ∧
    ¬((-1 : Int) > (0 : Int)) :=
  ⟨rfl, by decide⟩

/-- C8 (amended): every entry created by `set` with the ttl argument omitted
or non-negative satisfies `expiresAt > createdAt`; a negative ttl argument
(which the `number`-typed interface also accepts) violates the invariant. -/
theorem entry_invariant_amended (α : Type) (c : MemoryCache α) (now : Int)
    (k : String) (d : Option α) (ttl : Option Int)
    (h : ∀ t, ttl = some t → 0 ≤ t) :
    mapGet (MemoryCache.set c now k d ttl) k
      = some { data := d, timestamp := now,
               expiresAt := now + MemoryCache.ttlOrDefault ttl } ∧
    now < now + MemoryCache.ttlOrDefault ttl := by
  refine ⟨mapGet_set_self c now k d ttl, ?_⟩
  have := ttlOrDefault_pos ttl h
  omega

/-- C8 witness: the amended invariant evaluated at a concrete positive ttl. -/
theorem entry_invariant_witness :
    mapGet (MemoryCache.set ([] : MemoryCache Nat) 0 "k" none (some 7)) "k"
      = some { data := none, timestamp := 0,
               expiresAt := 0 + MemoryCache.ttlOrDefault (some 7) } ∧
    (0 : Int) < 0 + MemoryCache.ttlOrDefault (some 7) :=
  entry_invariant_amended Nat [] 0 "k" none (some 7)
    (by intro t ht; cases ht; decide)

/-- C10: `set(k, v, 0)` does not create an already-expired entry: the zero
ttl argument is falsy, so the call is the same as omitting the ttl and the
entry expires at `now + 5 * 60 * 1000`; `get` immediately after still
returns the value; any non-zero ttl argument is honored as given. -/
theorem zero_ttl_falls_back (α : Type) (c : MemoryCache α) (now : Int)
    (k : String) (d : Option α) :
    MemoryCache.set c now k d (some 0) = MemoryCache.set c now k d none ∧
    mapGet (MemoryCache.set c now k d (some 0)) k
      = some { data := d, timestamp := now, expiresAt := now + 5 * 60 * 1000 } ∧
    (MemoryCache.get (MemoryCache.set c now k d (some 0)) now k).1 = d ∧
    (∀ t : Int, t ≠ 0 →
      mapGet (MemoryCache.set c now k d (some t)) k
        = some { data := d, timestamp := now, expiresAt := now + t }) := by
  refine ⟨rfl, mapGet_set_self c now k d (some 0), ?_, ?_⟩
  · rw [get_eq_some _ _ _ _ (mapGet_set_self c now k d (some 0))]
    have : ¬now > now + MemoryCache.ttlOrDefault (some 0) := by
      have : (0 : Int) < MemoryCache.ttlOrDefault (some 0) := by decide
      omega
    rw [if_neg this]
  · intro t ht
    rw [mapGet_set_self c now k d (some t), ttlOrDefault_ne_zero t ht]

/-- C10 witness: the non-zero branch of `zero_ttl_falls_back` evaluated at
ttl = 5. -/
theorem zero_ttl_witness :
    mapGet (MemoryCache.set ([] : MemoryCache Nat) 0 "k" (some 1) (some 5)) "k"
      = some { data := some 1, timestamp := 0, expiresAt := 5 } := by
  exact (zero_ttl_falls_back Nat [] 0 "k" (some 1)).2.2.2 5 (by decide)

/-- C2 counterexample: the claim quantifies over every producer, but a
producer resolving to `null` is invoked again by the second call even
within the ttl window (two calls at times 0 and 5 with ttl 10, starting
from the empty cache, both invoke the producer). -/
theorem getOrPopulate_once_counterexample :
    (MemoryCache.getOrSet ([] : MemoryCache Nat) 0 "k"
        (Except.ok none : Except Unit (Option Nat)) (some 10)).2.2 = true ∧
    (MemoryCache.getOrSet
        (MemoryCache.getOrSet ([] : MemoryCache Nat) 0 "k"
          (Except.ok none : Except Unit (Option Nat)) (some 10)).2.1
        5 "k" (Except.ok none : Except Unit (Option Nat)) (some 10)).2.2 = true :=
  ⟨rfl, rfl⟩

/-- C2 (amended): for every key, ttl > 0 and producer resolving to a
non-null value, two `getOrSet` calls within the ttl window invoke the
producer exactly once — the first call invokes it and returns its value,
the second returns the cached value without invoking its producer — and a
second call strictly past the ttl window invokes its producer again. -/
theorem getOrPopulate_cache_then_reuse
    (α ε1 ε2 : Type) (c : MemoryCache α) (t0 t1 t2 : Int) (k : String) (v : α)
    (ttl : Int) (f2 : Except ε2 (Option α)) (ttl2 : Option Int)
    (hpos : 0 < ttl) (hwin : t1 ≤ t0 + ttl) (hexp : t0 + ttl < t2)
    (hmiss : (MemoryCache.get c t0 k).1 = none) :
    (MemoryCache.getOrSet c t0 k (Except.ok (some v) : Except ε1 (Option α)) (some ttl)).2.2
      = true ∧
    (MemoryCache.getOrSet c t0 k (Except.ok (some v) : Except ε1 (Option α)) (some ttl)).1
      = Except.ok (some v) ∧
    (MemoryCache.getOrSet
        (MemoryCache.getOrSet c t0 k (Except.ok (some v) : Except ε1 (Option α)) (some ttl)).2.1
        t1 k f2 ttl2).2.2 = false ∧
    (MemoryCache.getOrSet
        (MemoryCache.getOrSet c t0 k (Except.ok (some v) : Except ε1 (Option α)) (some ttl)).2.1
        t1 k f2 ttl2).1 = Except.ok (some v) ∧
    (MemoryCache.getOrSet
        (MemoryCache.getOrSet c t0 k (Except.ok (some v) : Except ε1 (Option α)) (some ttl)).2.1
        t2 k f2 ttl2).2.2 = true := by
  rcases hget : MemoryCache.get c t0 k with ⟨v0, c1⟩
  rw [hget] at hmiss
  have hv : v0 = none := hmiss
  subst hv
  rw [getOrSet_of_get_miss_ok c c1 t0 k (some v) (some ttl) hget]
  have hm := mapGet_set_self c1 t0 k (some v) (some ttl)
  rw [ttlOrDefault_ne_zero ttl (by omega)] at hm
  have hg2 := get_eq_some _ t1 _ _ hm
  rw [if_neg (by omega : ¬t1 > t0 + ttl)] at hg2
  have hg3 := get_eq_some _ t2 _ _ hm
  rw [if_pos (by omega : t2 > t0 + ttl)] at hg3
  refine ⟨rfl, rfl, ?_, ?_, ?_⟩
  · rw [getOrSet_of_get_hit _ _ t1 k v f2 ttl2 hg2]
  · rw [getOrSet_of_get_hit _ _ t1 k v f2 ttl2 hg2]
  · cases f2 with
    | error e2 => rw [getOrSet_of_get_miss_error _ _ t2 k e2 ttl2 hg3]
    | ok d2 => rw [getOrSet_of_get_miss_ok _ _ t2 k d2 ttl2 hg3]

/-- C2 witness: the amended statement evaluated on the empty cache with a
producer resolving to 1, ttl 10, calls at times 0, 5 and 11. -/
theorem getOrPopulate_cache_then_reuse_witness :
    (MemoryCache.getOrSet ([] : MemoryCache Nat) 0 "k"
        (Except.ok (some 1) : Except Unit (Option Nat)) (some 10)).2.2 = true ∧
    (MemoryCache.getOrSet ([] : MemoryCache Nat) 0 "k"
        (Except.ok (some 1) : Except Unit (Option Nat)) (some 10)).1
      = Except.ok (some 1) ∧
    (MemoryCache.getOrSet
        (MemoryCache.getOrSet ([] : MemoryCache Nat) 0 "k"
          (Except.ok (some 1) : Except Unit (Option Nat)) (some 10)).2.1
        5 "k" (Except.ok (some 9) : Except Unit (Option Nat)) (some 10)).2.2 = false ∧
    (MemoryCache.getOrSet
        (MemoryCache.getOrSet ([] : MemoryCache Nat) 0 "k"
          (Except.ok (some 1) : Except Unit (Option Nat)) (some 10)).2.1
        5 "k" (Except.ok (some 9) : Except Unit (Option Nat)) (some 10)).1
      = Except.ok (some 1) ∧
    (MemoryCache.getOrSet
        (MemoryCache.getOrSet ([] : MemoryCache Nat) 0 "k"
          (Except.ok (some 1) : Except Unit (Option Nat)) (some 10)).2.1
        11 "k" (Except.ok (some 9) : Except Unit (Option Nat)) (some 10)).2.2 = true :=
  getOrPopulate_cache_then_reuse Nat Unit Unit [] 0 5 11 "k" 1 10
    (Except.ok (some 9)) (some 10) (by decide) (by decide) (by decide) rfl

/-- C6: when the initial `get` misses and the producer fails, `getOrSet`
propagates the same failure, the producer was invoked, and the cache after
the call is exactly the cache left by the initial `get` — every other key
is untouched, and the whole store is either unchanged or differs only by
the lazy eviction of the consulted expired entry for the key. -/
theorem populate_failure_propagates
    (α ε : Type) (c : MemoryCache α) (now : Int) (k : String) (e : ε)
    (ttl : Option Int) (hmiss : (MemoryCache.get c now k).1 = none) :
    (MemoryCache.getOrSet c now k (Except.error e : Except ε (Option α)) ttl).1
      = Except.error e ∧
    (MemoryCache.getOrSet c now k (Except.error e : Except ε (Option α)) ttl).2.2
      = true ∧
    (MemoryCache.getOrSet c now k (Except.error e : Except ε (Option α)) ttl).2.1
      = (MemoryCache.get c now k).2 ∧
    (∀ j, j ≠ k →
      mapGet (MemoryCache.getOrSet c now k (Except.error e : Except ε (Option α)) ttl).2.1 j
        = mapGet c j) ∧
    ((MemoryCache.getOrSet c now k (Except.error e : Except ε (Option α)) ttl).2.1 = c ∨
     (MemoryCache.getOrSet c now k (Except.error e : Except ε (Option α)) ttl).2.1
        = mapDelete c k) := by
  rcases hget : MemoryCache.get c now k with ⟨v0, c1⟩
  rw [hget] at hmiss
  have hv : v0 = none := hmiss
  subst hv
  rw [getOrSet_of_get_miss_error c c1 now k e ttl hget]
  have hc1 : c1 = c ∨ c1 = mapDelete c k := by
    cases hmg : mapGet c k with
    | none =>
      have h2 := (get_eq_none c now k hmg).symm.trans hget
      simp only [Prod.mk.injEq] at h2
      exact Or.inl h2.2.symm
    | some entry =>
      have h2 := (get_eq_some c now k entry hmg).symm.trans hget
      by_cases hx : now > entry.expiresAt
      · rw [if_pos hx] at h2
        simp only [Prod.mk.injEq] at h2
        exact Or.inr h2.2.symm
      · rw [if_neg hx] at h2
        simp only [Prod.mk.injEq] at h2
        exact Or.inl h2.2.symm
  refine ⟨rfl, rfl, rfl, ?_, hc1⟩
  intro j hj
  rcases hc1 with h | h
  · rw [h]
  · rw [h, mapGet_mapDelete_ne c k j hj]

/-- C6 witness: a failing producer on a cache whose entry for the key has
expired — the error propagates, the expired entry is lazily evicted, and
an unrelated key is looked up unchanged. -/
theorem populate_failure_witness :
    (MemoryCache.getOrSet
        ([("k", { data := some 3, timestamp := 0, expiresAt := 10 })] : MemoryCache Nat)
        20 "k" (Except.error () : Except Unit (Option Nat)) (some 10)).1
      = Except.error () ∧
    (MemoryCache.getOrSet
        ([("k", { data := some 3, timestamp := 0, expiresAt := 10 })] : MemoryCache Nat)
        20 "k" (Except.error () : Except Unit (Option Nat)) (some 10)).2.2 = true ∧
    mapGet (MemoryCache.getOrSet
        ([("k", { data := some 3, timestamp := 0, expiresAt := 10 })] : MemoryCache Nat)
        20 "k" (Except.error () : Except Unit (Option Nat)) (some 10)).2.1 "x"
      = mapGet ([("k", { data := some 3, timestamp := 0, expiresAt := 10 })] : MemoryCache Nat) "x" ∧
    ((MemoryCache.getOrSet
        ([("k", { data := some 3, timestamp := 0, expiresAt := 10 })] : MemoryCache Nat)
        20 "k" (Except.error () : Except Unit (Option Nat)) (some 10)).2.1
        = ([("k", { data := some 3, timestamp := 0, expiresAt := 10 })] : MemoryCache Nat) ∨
     (MemoryCache.getOrSet
        ([("k", { data := some 3, timestamp := 0, expiresAt := 10 })] : MemoryCache Nat)
        20 "k" (Except.error () : Except Unit (Option Nat)) (some 10)).2.1
        = mapDelete ([("k", { data := some 3, timestamp := 0, expiresAt := 10 })] : MemoryCache Nat) "k") :=
  ⟨(populate_failure_propagates Nat Unit
      [("k", { data := some 3, timestamp := 0, expiresAt := 10 })] 20 "k" () (some 10) rfl).1,
   (populate_failure_propagates Nat Unit
      [("k", { data := some 3, timestamp := 0, expiresAt := 10 })] 20 "k" () (some 10) rfl).2.1,
   (populate_failure_propagates Nat Unit
      [("k", { data := some 3, timestamp := 0, expiresAt := 10 })] 20 "k" () (some 10) rfl).2.2.2.1
     "x" (by decide),
   (populate_failure_propagates Nat Unit
      [("k", { data := some 3, timestamp := 0, expiresAt := 10 })] 20 "k" () (some 10) rfl).2.2.2.2⟩

/-- C9: a stored `null` is indistinguishable from absence — after
`set(k, null, ttl)`, `has(k)` is `false` at every time; and once
`getOrSet(k, producer, ttl)` has cached a `null` producer result, any
subsequent `getOrSet(k, ...)` within the ttl window invokes its producer
again. -/
theorem null_never_cached :
    (∀ (α : Type) (c : MemoryCache α) (now now1 : Int) (k : String)
        (ttl : Option Int),
        MemoryCache.has (MemoryCache.set c now k none ttl) now1 k = false) ∧
    (∀ (α ε1 ε2 : Type) (c : MemoryCache α) (t0 t1 : Int) (k : String)
        (ttl : Int) (f2 : Except ε2 (Option α)) (ttl2 : Option Int),
        0 < ttl → t1 ≤ t0 + ttl →
        (MemoryCache.get c t0 k).1 = none →
        (MemoryCache.getOrSet c t0 k (Except.ok none : Except ε1 (Option α))
            (some ttl)).2.2 = true ∧
        (MemoryCache.getOrSet
            (MemoryCache.getOrSet c t0 k (Except.ok none : Except ε1 (Option α))
              (some ttl)).2.1
            t1 k f2 ttl2).2.2 = true) := by
  constructor
  · intro α c now now1 k ttl
    have hg := get_eq_some _ now1 _ _ (mapGet_set_self c now k none ttl)
    unfold MemoryCache.has
    rw [hg]
    by_cases hx : now1 > now + MemoryCache.ttlOrDefault ttl
    · rw [if_pos hx]
      rfl
    · rw [if_neg hx]
      rfl
  · intro α ε1 ε2 c t0 t1 k ttl f2 ttl2 hpos hwin hmiss
    rcases hget : MemoryCache.get c t0 k with ⟨v0, c1⟩
    rw [hget] at hmiss
    have hv : v0 = none := hmiss
    subst hv
    rw [getOrSet_of_get_miss_ok c c1 t0 k none (some ttl) hget]
    have hm := mapGet_set_self c1 t0 k none (some ttl)
    rw [ttlOrDefault_ne_zero ttl (by omega)] at hm
    have hg2 := get_eq_some _ t1 _ _ hm
    rw [if_neg (by omega : ¬t1 > t0 + ttl)] at hg2
    refine ⟨rfl, ?_⟩
    cases f2 with
    | error e2 => rw [getOrSet_of_get_miss_error _ _ t1 k e2 ttl2 hg2]
    | ok d2 => rw [getOrSet_of_get_miss_ok _ _ t1 k d2 ttl2 hg2]

/-- C9 witness: `has` is false right after storing `null`, and a
`getOrSet` that cached a `null` result invokes the next call's producer
again 7 ms later within a 10 ms ttl. -/
theorem null_never_cached_witness :
    MemoryCache.has (MemoryCache.set ([] : MemoryCache Nat) 0 "k" none (some 10)) 5 "k"
      = false ∧
    (MemoryCache.getOrSet ([] : MemoryCache Nat) 0 "k"
        (Except.ok none : Except Unit (Option Nat)) (some 10)).2.2 = true ∧
    (MemoryCache.getOrSet
        (MemoryCache.getOrSet ([] : MemoryCache Nat) 0 "k"
          (Except.ok none : Except Unit (Option Nat)) (some 10)).2.1
        7 "k" (Except.ok (some 2) : Except Unit (Option Nat)) (some 10)).2.2 = true :=
  ⟨null_never_cached.1 Nat [] 0 5 "k" (some 10),
   (null_never_cached.2 Nat Unit Unit [] 0 7 "k" 10 (Except.ok (some 2)) (some 10)
     (by decide) (by decide) rfl).1,
   (null_never_cached.2 Nat Unit Unit [] 0 7 "k" 10 (Except.ok (some 2)) (some 10)
     (by decide) (by decide) rfl).2⟩

/- The fold inside `invalidateCache`, characterised over any snapshot of
keys, for a cache whose keys are distinct (the `Map` invariant). -/
theorem invalidate_foldl (α : Type) (pat : String) :
    ∀ (ks : List String) (n : Nat) (c : MemoryCache α),
      (c.map Prod.fst).Nodup →
      ks.foldl
        (fun acc key =>
          if strIncludes key pat then (acc.1 + 1, MemoryCache.deleteKey acc.2 key)
          else acc)
        (n, c)
        = (n + ks.countP (fun k => strIncludes k pat),
           c.filter fun e => !(decide (e.1 ∈ ks) && strIncludes e.1 pat)) := by
  intro ks
  induction ks with
  | nil =>
    intro n c hnd
    simp
  | cons k ks ih =>
    intro n c hnd
    by_cases hk : strIncludes k pat
    · have hnd2 : ((MemoryCache.deleteKey c k).map Prod.fst).Nodup := by
        rw [MemoryCache.deleteKey, mapDelete_eq_filter c k hnd]
        exact hnd.sublist (List.Sublist.map Prod.fst (List.filter_sublist c))
      rw [List.foldl_cons, if_pos hk, ih (n + 1) (MemoryCache.deleteKey c k) hnd2]
      have hcount : n + 1 + ks.countP (fun k2 => strIncludes k2 pat)
          = n + (k :: ks).countP (fun k2 => strIncludes k2 pat) := by
        rw [List.countP_cons]
        simp only [hk, if_pos]
        omega
      have hfilter :
          (MemoryCache.deleteKey c k).filter
              (fun e => !(decide (e.1 ∈ ks) && strIncludes e.1 pat))
            = c.filter fun e => !(decide (e.1 ∈ k :: ks) && strIncludes e.1 pat) := by
        rw [MemoryCache.deleteKey, mapDelete_eq_filter c k hnd, List.filter_filter]
        apply List.filter_congr
        intro e he
        by_cases hek : e.1 = k
        · simp [hek, hk]
        · simp [hek, List.mem_cons]
      rw [hcount, hfilter]
    · rw [List.foldl_cons, if_neg hk, ih n c hnd]
      have hcount : ks.countP (fun k2 => strIncludes k2 pat)
          = (k :: ks).countP (fun k2 => strIncludes k2 pat) := by
        rw [List.countP_cons]
        simp [hk]
      have hfilter :
          c.filter (fun e => !(decide (e.1 ∈ ks) && strIncludes e.1 pat))
            = c.filter fun e => !(decide (e.1 ∈ k :: ks) && strIncludes e.1 pat) := by
        apply List.filter_congr
        intro e he
        by_cases hek : e.1 = k
        · simp [hek, hk]
        · simp [hek, List.mem_cons]
      rw [hcount, hfilter]

/-- C5: on a cache with distinct keys (the `Map` invariant),
`invalidateByPattern` returns the number of keys that contain the pattern
as a literal substring and leaves exactly the entries whose key does not
contain the pattern, unchanged and in order; and `hasSubstr` is literal
substring containment. -/
theorem pattern_invalidation_correct (α : Type) (c : MemoryCache α)
    (pat : String) (hnd : (c.map Prod.fst).Nodup) :
    invalidateCache c pat
      = ((c.map Prod.fst).countP (fun k => strIncludes k pat),
         c.filter fun e => !(strIncludes e.1 pat)) ∧
    (∀ p s : List Char, hasSubstr p s = true ↔ ∃ l r, s = l ++ p ++ r) := by
  refine ⟨?_, fun p s => hasSubstr_iff p s⟩
  simp only [invalidateCache, MemoryCache.stats]
  rw [invalidate_foldl α pat (c.map Prod.fst) 0 c hnd]
  refine congrArg₂ Prod.mk (by omega) ?_
  apply List.filter_congr
  intro e he
  have hm : decide (e.1 ∈ c.map Prod.fst) = true :=
    decide_eq_true (List.mem_map_of_mem Prod.fst he)
  simp [hm]

/-- C5 witness: the spec's example — keys `customers:all`,
`customers:page2`, `products:all`; invalidating `customers` returns 2 and
leaves only `products:all`, with its stored value and expiry untouched. -/
theorem pattern_invalidation_witness :
    invalidateCache
        ([("customers:all", { data := some 1, timestamp := 0, expiresAt := 10 }),
          ("customers:page2", { data := some 2, timestamp := 0, expiresAt := 10 }),
          ("products:all", { data := some 3, timestamp := 0, expiresAt := 10 })] :
          MemoryCache Nat)
        "customers"
      = (2, [("products:all", { data := some 3, timestamp := 0, expiresAt := 10 })]) := by
  rw [(pattern_invalidation_correct Nat
        [("customers:all", { data := some 1, timestamp := 0, expiresAt := 10 }),
         ("customers:page2", { data := some 2, timestamp := 0, expiresAt := 10 }),
         ("products:all", { data := some 3, timestamp := 0, expiresAt := 10 })]
        "customers" (by decide)).1]
  rfl

/- Per-item sums: cons lemmas. -/

theorem sumQty_cons_of_eq (pid : String) (oi : OrderItem) (items : List OrderItem)
    (h : oi.productId = pid) :
    sumQty pid (oi :: items) = oi.quantity + sumQty pid items := by
  simp [sumQty, h]

theorem sumQty_cons_of_ne (pid : String) (oi : OrderItem) (items : List OrderItem)
    (h : ¬oi.productId = pid) :
    sumQty pid (oi :: items) = sumQty pid items := by
  simp [sumQty, h]

theorem sumRevenue_cons_of_eq (pid : String) (oi : OrderItem) (items : List OrderItem)
    (h : oi.productId = pid) :
    sumRevenue pid (oi :: items) = oi.quantity * oi.price + sumRevenue pid items := by
  simp [sumRevenue, h]

theorem sumRevenue_cons_of_ne (pid : String) (oi : OrderItem) (items : List OrderItem)
    (h : ¬oi.productId = pid) :
    sumRevenue pid (oi :: items) = sumRevenue pid items := by
  simp [sumRevenue, h]

/- The aggregation loop accumulates exactly the per-id sums. -/
theorem metrics_foldl (pid : String) :
    ∀ (items : List OrderItem) (m : List (String × ItemTotals)),
      (mapGet (items.foldl miStep m) pid).getD ⟨0, 0⟩
        = ⟨((mapGet m pid).getD ⟨0, 0⟩).quantity + sumQty pid items,
           ((mapGet m pid).getD ⟨0, 0⟩).revenue + sumRevenue pid items⟩ := by
  intro items
  induction items with
  | nil =>
    intro m
    rcases hx : (mapGet m pid).getD ⟨0, 0⟩ with ⟨q, r⟩
    simp [sumQty, sumRevenue, hx]
  | cons oi rest ih =>
    intro m
    rw [List.foldl_cons, ih (miStep m oi)]
    by_cases h : oi.productId = pid
    · have hm : mapGet (miStep m oi) pid
          = some ⟨((mapGet m oi.productId).getD ⟨0, 0⟩).quantity + oi.quantity,
                  ((mapGet m oi.productId).getD ⟨0, 0⟩).revenue
                    + oi.quantity * oi.price⟩ := by
        simp [miStep, mapGet_mapSet, h]
      rw [hm, sumQty_cons_of_eq pid oi rest h, sumRevenue_cons_of_eq pid oi rest h, h]
      simp only [Option.getD_some]
      refine congrArg₂ ItemTotals.mk ?_ ?_ <;> ring
    · have hm : mapGet (miStep m oi) pid = mapGet m pid := by
        have h2 : ¬pid = oi.productId := fun hh => h hh.symm
        simp [miStep, mapGet_mapSet, h2]
      rw [hm, sumQty_cons_of_ne pid oi rest h, sumRevenue_cons_of_ne pid oi rest h]

theorem metricsMap_getD (pid : String) (items : List OrderItem) :
    (mapGet (metricsMap items) pid).getD ⟨0, 0⟩
      = ⟨sumQty pid items, sumRevenue pid items⟩ := by
  have h := metrics_foldl pid items []
  simpa [metricsMap, mapGet] using h

/- Filtering out items that a sum never looks at does not change it. -/
theorem sumQty_filter (pid : String) (Q : OrderItem → Bool)
    (items : List OrderItem)
    (hQ : ∀ oi ∈ items, oi.productId = pid → Q oi = true) :
    sumQty pid (items.filter Q) = sumQty pid items := by
  induction items with
  | nil => rfl
  | cons oi rest ih =>
    have hrest : ∀ o ∈ rest, o.productId = pid → Q o = true :=
      fun o ho => hQ o (List.mem_cons_of_mem _ ho)
    by_cases h : oi.productId = pid
    · have hq := hQ oi (List.mem_cons_self _ _) h
      simp [List.filter_cons, hq, sumQty_cons_of_eq pid oi _ h,
            sumQty_cons_of_eq pid oi rest h, ih hrest]
    · by_cases hqoi : Q oi
      · simp [List.filter_cons, hqoi, sumQty_cons_of_ne pid oi _ h,
              sumQty_cons_of_ne pid oi rest h, ih hrest]
      · simp [List.filter_cons, hqoi, sumQty_cons_of_ne pid oi rest h, ih hrest]

theorem sumRevenue_filter (pid : String) (Q : OrderItem → Bool)
    (items : List OrderItem)
    (hQ : ∀ oi ∈ items, oi.productId = pid → Q oi = true) :
    sumRevenue pid (items.filter Q) = sumRevenue pid items := by
  induction items with
  | nil => rfl
  | cons oi rest ih =>
    have hrest : ∀ o ∈ rest, o.productId = pid → Q o = true :=
      fun o ho => hQ o (List.mem_cons_of_mem _ ho)
    by_cases h : oi.productId = pid
    · have hq := hQ oi (List.mem_cons_self _ _) h
      simp [List.filter_cons, hq, sumRevenue_cons_of_eq pid oi _ h,
            sumRevenue_cons_of_eq pid oi rest h, ih hrest]
    · by_cases hqoi : Q oi
      · simp [List.filter_cons, hqoi, sumRevenue_cons_of_ne pid oi _ h,
              sumRevenue_cons_of_ne pid oi rest h, ih hrest]
      · simp [List.filter_cons, hqoi, sumRevenue_cons_of_ne pid oi rest h, ih hrest]

/-- C3: the aggregation assigns every product its sum of quantities and its
sum of quantity times unit price over the line items carrying its id, in
input order; a product none of whose line items match gets totals 0; and
line items whose id matches no product in the list contribute nothing (the
output is unchanged when they are filtered out). -/
theorem aggregation_totals_correct :
    (∀ (products : List Product) (items : List OrderItem),
        (productsWithMetrics products items).map
            (fun q => (q.id, q.totalSold, q.totalRevenue))
          = products.map fun p => (p.id, sumQty p.id items, sumRevenue p.id items)) ∧
    (∀ (products : List Product) (items : List OrderItem),
        ∀ q ∈ productsWithMetrics products items,
          (∀ oi ∈ items, oi.productId ≠ q.id) →
          q.totalSold = 0 ∧ q.totalRevenue = 0) ∧
    (∀ (products : List Product) (items : List OrderItem),
        productsWithMetrics products items
          = productsWithMetrics products
              (items.filter fun oi => products.any fun p => decide (p.id = oi.productId))) := by
  refine ⟨?_, ?_, ?_⟩
  · intro products items
    simp only [productsWithMetrics, List.map_map]
    congr 1
    funext p
    simp [Function.comp, metricsMap_getD]
  · intro products items q hq hnone
    simp only [productsWithMetrics, List.mem_map] at hq
    obtain ⟨p, hp, rfl⟩ := hq
    simp only at hnone
    have hfil : items.filter (fun oi => decide (oi.productId = p.id)) = [] := by
      rw [List.filter_eq_nil_iff]
      intro oi hoi
      simpa using hnone oi hoi
    constructor
    · show ((mapGet (metricsMap items) p.id).getD ⟨0, 0⟩).quantity = 0
      simp [metricsMap_getD, sumQty, hfil]
    · show ((mapGet (metricsMap items) p.id).getD ⟨0, 0⟩).revenue = 0
      simp [metricsMap_getD, sumRevenue, hfil]
  · intro products items
    simp only [productsWithMetrics]
    apply List.map_congr_left
    intro p hp
    have hQ : ∀ oi ∈ items, oi.productId = p.id →
        (products.any fun p2 => decide (p2.id = oi.productId)) = true := by
      intro oi hoi h
      simp only [List.any_eq_true]
      exact ⟨p, hp, decide_eq_true h.symm⟩
    have h1 := sumQty_filter p.id _ items hQ
    have h2 := sumRevenue_filter p.id _ items hQ
    simp [metricsMap_getD, h1, h2]

/-- C3 witness: a product with no attributable line items (the only line
item names an id absent from the product list) appears in the output with
both totals zero. -/
theorem aggregation_totals_witness :
    ({ id := "B", category := "c", price := 3, cost := 1, totalSold := 0,
       totalRevenue := 0, profitPerUnit := 2, marginPercent := 667/10 } :
      ProductWithMetrics).totalSold = 0 ∧
    ({ id := "B", category := "c", price := 3, cost := 1, totalSold := 0,
       totalRevenue := 0, profitPerUnit := 2, marginPercent := 667/10 } :
      ProductWithMetrics).totalRevenue = 0 :=
  aggregation_totals_correct.2.1
    [{ id := "B", category := "c", price := 3, cost := 1 }]
    [{ productId := "A", quantity := 2, price := 5 }] _
    (by
      apply List.mem_singleton.2
      have hif : (if "A" = "B" then some { quantity := (2 : Rat), revenue := 10 }
          else (none : Option ItemTotals)) = none := rfl
      norm_num [productsWithMetrics, metricsMap, miStep, mapGet, mapSet, jsRound, hif])
    (by decide)

/-- C4: every output entry satisfies `profitPerUnit = price - cost` and
`marginPercent = round((profitPerUnit / price) * 1000) / 10` when
`price > 0`, else `0`; in particular price 4.50 and cost 1.20 give
profitPerUnit 3.30 and marginPercent 73.3, and price 0 gives
marginPercent 0. -/
theorem margin_arithmetic :
    (∀ (products : List Product) (items : List OrderItem),
        ∀ q ∈ productsWithMetrics products items,
          q.profitPerUnit = q.price - q.cost ∧
          q.marginPercent = marginPercentSpec q.price q.cost) ∧
    ((productsWithMetrics
        [{ id := "A", category := "c", price := 9/2, cost := 6/5 }] []).map
          (fun q => (q.profitPerUnit, q.marginPercent))
      = [(33/10, 733/10)]) ∧
    ((productsWithMetrics
        [{ id := "B", category := "c", price := 0, cost := 1 }] []).map
          (fun q => q.marginPercent)
      = [(0 : Rat)]) := by
  refine ⟨?_, ?_, ?_⟩
  · intro products items q hq
    simp only [productsWithMetrics, List.mem_map] at hq
    obtain ⟨p, hp, rfl⟩ := hq
    refine ⟨rfl, ?_⟩
    show (if p.price > 0
        then ((jsRound ((p.price - p.cost) / p.price * 100 * 10) : Rat) / 10)
        else 0)
      = marginPercentSpec p.price p.cost
    unfold marginPercentSpec
    by_cases h : p.price > 0
    · rw [if_pos h, if_pos h]
      have harg : (p.price - p.cost) / p.price * 100 * 10
          = (p.price - p.cost) / p.price * 1000 := by ring
      rw [harg]
    · rw [if_neg h, if_neg h]
  · norm_num [productsWithMetrics, metricsMap, mapGet, jsRound]
  · norm_num [productsWithMetrics, metricsMap, mapGet, jsRound]

/-- C4 witness: the universally quantified part of `margin_arithmetic`
evaluated at the concrete output entry for price 4.50, cost 1.20. -/
theorem margin_arithmetic_witness :
    ({ id := "A", category := "c", price := 9/2, cost := 6/5, totalSold := 0,
       totalRevenue := 0, profitPerUnit := 33/10, marginPercent := 733/10 } :
      ProductWithMetrics).profitPerUnit
      = ({ id := "A", category := "c", price := 9/2, cost := 6/5, totalSold := 0,
           totalRevenue := 0, profitPerUnit := 33/10, marginPercent := 733/10 } :
          ProductWithMetrics).price
        - ({ id := "A", category := "c", price := 9/2, cost := 6/5, totalSold := 0,
             totalRevenue := 0, profitPerUnit := 33/10, marginPercent := 733/10 } :
            ProductWithMetrics).cost ∧
    ({ id := "A", category := "c", price := 9/2, cost := 6/5, totalSold := 0,
       totalRevenue := 0, profitPerUnit := 33/10, marginPercent := 733/10 } :
      ProductWithMetrics).marginPercent
      = marginPercentSpec
          ({ id := "A", category := "c", price := 9/2, cost := 6/5, totalSold := 0,
             totalRevenue := 0, profitPerUnit := 33/10, marginPercent := 733/10 } :
            ProductWithMetrics).price
          ({ id := "A", category := "c", price := 9/2, cost := 6/5, totalSold := 0,
             totalRevenue := 0, profitPerUnit := 33/10, marginPercent := 733/10 } :
            ProductWithMetrics).cost :=
  margin_arithmetic.1
    [{ id := "A", category := "c", price := 9/2, cost := 6/5 }] [] _
    (by norm_num [productsWithMetrics, metricsMap, mapGet, jsRound])

/-- C7: `sortedBySold` is a permutation of its input, sorted descending by
`totalSold`, and stable — entities of any given `totalSold` value appear in
their input order; with 4 entities whose ids are distinct, the top-3 and
the last-3 of the same sorted sequence share exactly 2 entities, and no
error is involved. -/
theorem ranking_correct :
    (∀ l : List ProductWithMetrics, (sortedBySold l).Perm l) ∧
    (∀ l : List ProductWithMetrics,
        (sortedBySold l).Pairwise fun a b => b.totalSold ≤ a.totalSold) ∧
    (∀ (l : List ProductWithMetrics) (v : Rat),
        (sortedBySold l).filter (fun q => decide (q.totalSold = v))
          = l.filter fun q => decide (q.totalSold = v)) ∧
    (∀ l : List ProductWithMetrics, l.length = 4 →
        ((l.map fun p => p.id).Nodup) →
        ((topSellers l).filter fun i => decide (i ∈ slowMovers l)).length = 2) := by
  have htrans : ∀ a b c : ProductWithMetrics,
      decide (b.totalSold ≤ a.totalSold) = true →
      decide (c.totalSold ≤ b.totalSold) = true →
      decide (c.totalSold ≤ a.totalSold) = true := by
    intro a b c h1 h2
    exact decide_eq_true (le_trans (of_decide_eq_true h2) (of_decide_eq_true h1))
  have htotal : ∀ a b : ProductWithMetrics,
      (decide (b.totalSold ≤ a.totalSold) || decide (a.totalSold ≤ b.totalSold))
        = true := by
    intro a b
    rcases le_total b.totalSold a.totalSold with h | h
    · rw [decide_eq_true h, Bool.true_or]
    · rw [decide_eq_true h, Bool.or_true]
  refine ⟨?_, ?_, ?_, ?_⟩
  · intro l
    exact List.mergeSort_perm l _
  · intro l
    exact (List.sorted_mergeSort htrans htotal l).imp fun h => of_decide_eq_true h
  · intro l v
    have hall : ∀ x ∈ l.filter (fun q => decide (q.totalSold = v)),
        x.totalSold = v := by
      intro x hx
      exact of_decide_eq_true (List.mem_filter.1 hx).2
    have hpair : (l.filter (fun q => decide (q.totalSold = v))).Pairwise
        (fun a b => decide (b.totalSold ≤ a.totalSold) = true) := by
      apply List.pairwise_of_forall_mem_list
      intro a ha b hb
      exact decide_eq_true (le_of_eq ((hall b hb).trans (hall a ha).symm))
    have hc : (l.filter (fun q => decide (q.totalSold = v))).Sublist
        (sortedBySold l) :=
      List.sublist_mergeSort htrans htotal hpair (List.filter_sublist l)
    have h2 : (l.filter (fun q => decide (q.totalSold = v))).Sublist
        ((sortedBySold l).filter (fun q => decide (q.totalSold = v))) := by
      have h3 := hc.filter (fun q => decide (q.totalSold = v))
      rwa [List.filter_eq_self.2 (fun x hx => (List.mem_filter.1 hx).2)] at h3
    have hlen : ((sortedBySold l).filter (fun q => decide (q.totalSold = v))).length
        = (l.filter (fun q => decide (q.totalSold = v))).length :=
      ((List.mergeSort_perm l _).filter _).length_eq
    exact (h2.eq_of_length hlen.symm).symm
  · intro l hlen hnd
    have hperm := List.mergeSort_perm l
      (fun a b => decide (b.totalSold ≤ a.totalSold))
    have hslen : (sortedBySold l).length = 4 := by
      rw [sortedBySold, hperm.length_eq, hlen]
    have hsnd : ((sortedBySold l).map (fun p => p.id)).Nodup :=
      (List.Perm.nodup_iff (hperm.map (fun p => p.id))).2 hnd
    rcases hseq : sortedBySold l with _ | ⟨a, _ | ⟨b, _ | ⟨c4, _ | ⟨d, rest⟩⟩⟩⟩ <;>
      rw [hseq] at hslen <;> simp only [List.length_cons, List.length_nil] at hslen
    · exact absurd hslen (by decide)
    · exact absurd hslen (by omega)
    · exact absurd hslen (by omega)
    · exact absurd hslen (by omega)
    · have hrest : rest = [] := List.length_eq_zero.1 (by omega)
      subst hrest
      rw [hseq] at hsnd
      simp only [List.map_cons, List.map_nil, List.nodup_cons, List.mem_cons,
        List.mem_singleton, List.not_mem_nil, not_or] at hsnd
      obtain ⟨⟨hab, hac, had⟩, ⟨hbc, hbd⟩, hcd⟩ := hsnd
      simp [topSellers, slowMovers, hseq, List.filter_cons, List.mem_cons,
        hab, hac, had]

/- A concrete 4-entity input for the ranking property. -/
def rankingSample : List ProductWithMetrics :=
  [{ id := "p1", category := "c", price := 1, cost := 1, totalSold := 5,
     totalRevenue := 0, profitPerUnit := 0, marginPercent := 0 },
   { id := "p2", category := "c", price := 1, cost := 1, totalSold := 9,
     totalRevenue := 0, profitPerUnit := 0, marginPercent := 0 },
   { id := "p3", category := "c", price := 1, cost := 1, totalSold := 9,
     totalRevenue := 0, profitPerUnit := 0, marginPercent := 0 },
   { id := "p4", category := "c", price := 1, cost := 1, totalSold := 2,
     totalRevenue := 0, profitPerUnit := 0, marginPercent := 0 }]

/-- C7 witness: on a concrete 4-entity list with distinct ids (and a tie on
`totalSold`), the top-3 and the last-3 of the sorted sequence share exactly
2 entities. -/
theorem ranking_witness :
    ((topSellers rankingSample).filter
        fun i => decide (i ∈ slowMovers rankingSample)).length = 2 :=
  ranking_correct.2.2.2 rankingSample rfl (by decide)
